import Mathlib

/-!
Verification development for the card-preview service (src/index.ts).

The TypeScript source is shallowly embedded: strings are `List Char` where
character-level reasoning matters, JSON runtime values are the inductive
`Js`, the parsed HTML document is the finite node table `Doc` (the linkedom
parser and serializer are out-of-scope collaborators and enter only as
parameters), and the effectful GitHub orchestration is explicit state
passing over an event trace together with a network oracle
`Net : HttpRequest → HttpResponse`.  Exceptions are `Except String`.
-/

/-- Whitespace test for the JS regex class `\s` as used by
`sanitizeFieldValue` and `String.prototype.trim` (ASCII whitespace code
points: space, tab, LF, VT, FF, CR). -/
def isWs (c : Char) : Bool :=
  c.toNat = 32 || c.toNat = 9 || c.toNat = 10 || c.toNat = 13 ||
  c.toNat = 11 || c.toNat = 12

/-- Scanner for `value.replace(/\s+/g, " ")`: each maximal run of whitespace
characters becomes one space.  The flag records whether the previous input
character was inside a whitespace run (the current run has already emitted its
single space). -/
def collapseWsAux : Bool → List Char → List Char
  | _, [] => []
  | prevWs, c :: cs =>
    if isWs c then
      if prevWs then collapseWsAux true cs else ' ' :: collapseWsAux true cs
    else c :: collapseWsAux false cs

/-- `value.replace(/\s+/g, " ")`. -/
def collapseWs (l : List Char) : List Char := collapseWsAux false l

/-- Removal of trailing whitespace (the right half of JS `trim`). -/
def trimRightWs : List Char → List Char
  | [] => []
  | c :: cs =>
    let r := trimRightWs cs
    if r.isEmpty && isWs c then [] else c :: r

/-- JS `String.prototype.trim`: drop leading and trailing whitespace. -/
def trimWs (l : List Char) : List Char := trimRightWs (l.dropWhile isWs)

/-- Specification-level decomposition of text into its maximal runs of
non-whitespace characters (its words), in order, with whitespace runs
discarded.  `sanitizeFieldValue` on a string is proved equal to these words
joined by a single space, which is exactly "collapse every whitespace run
to one space and trim the ends". -/
def wordsOf : List Char → List (List Char)
  | [] => []
  | c :: cs =>
    if isWs c then wordsOf cs
    else
      match cs with
      | [] => [[c]]
      | d :: _ =>
        if isWs d then [c] :: wordsOf cs
        else
          match wordsOf cs with
          | [] => [[c]]
          | w :: ws => (c :: w) :: ws

/-- A JSON-ish runtime value, as produced by `JSON.parse` /
`response.json()`.  `other` stands for the non-string, non-plain-object
values the code only ever treats as opaque truthy data (numbers, arrays,
booleans). -/
inductive Js where
  | null
  | str (s : String)
  | obj (fields : List (String × Js))
  | other

/-- Property access `value?.k` on a parsed JSON value. -/
def Js.field : Js → String → Option Js
  | .obj fields, k => (fields.find? (fun kv => kv.1 == k)).map (fun kv => kv.2)
  | _, _ => none

/-- JS falsiness of an optional value (`!x` on `undefined`, `null`, `""`). -/
def jsFalsy : Option Js → Bool
  | none => true
  | some .null => true
  | some (.str s) => s.isEmpty
  | some (.obj _) => false
  | some .other => false

/-- The string branch of `sanitizeFieldValue`:
`value.replace(/\s+/g, " ").trim()`. -/
def sanitizeStr (l : List Char) : List Char := trimWs (collapseWs l)

/-- `sanitizeFieldValue` (src/index.ts:68-73): non-strings become `""`,
strings have whitespace runs collapsed and ends trimmed. -/
def sanitizeFieldValue : Js → List Char
  | .str s => sanitizeStr s.data
  | _ => []

/-- `TemplateFieldConfig` (src/index.ts:16-21). -/
structure TemplateFieldConfig where
  id : String
  selector : Option String := none
  index : Option Nat := none
  attr : Option String := none
deriving DecidableEq

/-- `TEMPLATE_FIELD_CONFIGS` (src/index.ts:25-51), the field registry. -/
def TEMPLATE_FIELD_CONFIGS : List TemplateFieldConfig :=
  [{ id := "phone", selector := some ".card__phone" },
   { id := "companyWordLeft", selector := some ".card__company-word", index := some 0 },
   { id := "companyAmpersand", selector := some ".card__company-ampersand" },
   { id := "companyWordRight", selector := some ".card__company-word", index := some 1 },
   { id := "companyTagline", selector := some ".card__company-tagline" },
   { id := "personFirst", selector := some ".card__person-first" },
   { id := "personLast", selector := some ".card__person-last" },
   { id := "title", selector := some ".card__title" },
   { id := "address", selector := some ".card__bottom-address" },
   { id := "faxLabel", selector := some ".card__bottom-contact--fax .card__bottom-label" },
   { id := "faxValue", selector := some ".card__bottom-contact--fax .card__bottom-value" },
   { id := "telexLabel", selector := some ".card__bottom-contact--telex .card__bottom-label" },
   { id := "telexValue", selector := some ".card__bottom-contact--telex .card__bottom-value" }]

/-- `TEMPLATE_FIELD_MAP.get` (src/index.ts:53-55): the `Map` built from the
config list, where a later entry with the same id would win. -/
def TEMPLATE_FIELD_MAP_get (key : String) : Option TemplateFieldConfig :=
  TEMPLATE_FIELD_CONFIGS.reverse.find? (fun c => c.id == key)

/-- `TEMPLATE_FIELD_MAP.has`. -/
def TEMPLATE_FIELD_MAP_has (key : String) : Bool :=
  (TEMPLATE_FIELD_MAP_get key).isSome

/-- `normalizeFieldValues` (src/index.ts:75-91).  Non-object input yields the
empty map; keys not in the registry are skipped; kept values are sanitized. -/
def normalizeFieldValues : Js → List (String × List Char)
  | .obj entries =>
      entries.filterMap (fun kv =>
        if TEMPLATE_FIELD_MAP_has kv.1 then some (kv.1, sanitizeFieldValue kv.2)
        else none)
  | _ => []

/-- A DOM element: its text content and attributes. -/
structure DomNode where
  text : List Char := []
  attrs : List (String × List Char) := []
deriving DecidableEq

/-- The parsed template document, abstracted as the finite table of nodes the
engine can address: the key `(sel, i)` stands for the node
`querySelectorAll(sel)[i]` (and `querySelector(sel)` is `(sel, 0)`). -/
abbrev Doc := List ((String × Nat) × DomNode)

/-- Node lookup: `querySelectorAll(sel)[idx] ?? null`. -/
def getNode (doc : Doc) (sel : String) (idx : Nat) : Option DomNode :=
  (doc.find? (fun e => e.1.1 == sel && e.1.2 == idx)).map (fun e => e.2)

/-- `node.textContent = v` on the node addressed by `(sel, idx)`; a no-op
when no node matches. -/
def setNodeText (doc : Doc) (sel : String) (idx : Nat) (v : List Char) : Doc :=
  doc.map (fun e =>
    if e.1.1 == sel && e.1.2 == idx then (e.1, { e.2 with text := v }) else e)

/-- `setAttribute` on an attribute list: overwrite or append. -/
def setAttrList (attrs : List (String × List Char)) (a : String) (v : List Char) :
    List (String × List Char) :=
  if (attrs.find? (fun kv => kv.1 == a)).isSome then
    attrs.map (fun kv => if kv.1 == a then (kv.1, v) else kv)
  else attrs ++ [(a, v)]

/-- `node.setAttribute(a, v)` on the node addressed by `(sel, idx)`. -/
def setNodeAttr (doc : Doc) (sel : String) (idx : Nat) (a : String) (v : List Char) : Doc :=
  doc.map (fun e =>
    if e.1.1 == sel && e.1.2 == idx then (e.1, { e.2 with attrs := setAttrList e.2.attrs a v })
    else e)

/-- `getTemplateNode` (src/index.ts:93-104): no selector means no node; with
an `index` take the indexed match, else the first match. -/
def getTemplateNode (doc : Doc) (config : TemplateFieldConfig) : Option DomNode :=
  match config.selector with
  | none => none
  | some sel => getNode doc sel (config.index.getD 0)

/-- `readTemplateField` (src/index.ts:106-117).  A missing node reads as `""`;
an `attr` binding reads the attribute (default `""`); otherwise the text
content.  A falsy (empty) `attr` string falls through to text content, as
`config.attr &&` does. -/
def readTemplateField (doc : Doc) (config : TemplateFieldConfig) : List Char :=
  match getTemplateNode doc config with
  | none => []
  | some node =>
    match config.attr with
    | some a =>
        if a.isEmpty then node.text
        else (((node.attrs.find? (fun kv => kv.1 == a)).map (fun kv => kv.2)).getD [])
    | none => node.text

/-- `writeTemplateField` (src/index.ts:119-135): no-op without a node;
attribute write when `attr` is truthy, else text-content write. -/
def writeTemplateField (doc : Doc) (config : TemplateFieldConfig) (value : List Char) : Doc :=
  match config.selector with
  | none => doc
  | some sel =>
    let idx := config.index.getD 0
    match getNode doc sel idx with
    | none => doc
    | some _ =>
      match config.attr with
      | some a =>
          if a.isEmpty then setNodeText doc sel idx value
          else setNodeAttr doc sel idx a value
      | none => setNodeText doc sel idx value

/-- JS `toUpperCase` on a single character (ASCII letter range). -/
def charUpper (c : Char) : Char :=
  if 97 ≤ c.toNat ∧ c.toNat ≤ 122 then Char.ofNat (c.toNat - 32) else c

/-- JS `toLowerCase` on a single character (ASCII letter range). -/
def charLower (c : Char) : Char :=
  if 65 ≤ c.toNat ∧ c.toNat ≤ 90 then Char.ofNat (c.toNat + 32) else c

/-- `capitalizeWord` (src/index.ts:137-142): uppercase first character,
lowercase remainder; empty input is returned as is. -/
def capitalizeWord : List Char → List Char
  | [] => []
  | c :: cs => charUpper c :: cs.map charLower

/-- The derived-title computation (src/index.ts:166-170):
`[first, last].filter(Boolean).map(capitalizeWord).join(" ").trim()`. -/
def computedTitle (first last : List Char) : List Char :=
  trimWs (List.intercalate [' ']
    (([first, last].filter (fun l => !l.isEmpty)).map capitalizeWord))

/-- The write loop of `applyFieldsToTemplate` (src/index.ts:152-159): write
each registry-known value to its node and record it in `applied`. -/
def writeFields (doc : Doc) (values : List (String × List Char)) :
    Doc × List (String × List Char) :=
  values.foldl
    (fun acc kv =>
      match TEMPLATE_FIELD_MAP_get kv.1 with
      | none => acc
      | some config => (writeTemplateField acc.1 config kv.2, acc.2 ++ [kv]))
    (doc, [])

/-- The derived-title step of `applyFieldsToTemplate` (src/index.ts:161-177):
read back and re-sanitize the document's person fields, and when the computed
title is non-empty overwrite the `<title>` element's text (a no-op when that
element does not exist). -/
def applyTitle (doc : Doc) : Doc :=
  match TEMPLATE_FIELD_MAP_get "personFirst", TEMPLATE_FIELD_MAP_get "personLast" with
  | some firstConfig, some lastConfig =>
    let first := sanitizeStr (readTemplateField doc firstConfig)
    let last := sanitizeStr (readTemplateField doc lastConfig)
    let ct := computedTitle first last
    if ct.isEmpty then doc else setNodeText doc "title" 0 ct
  | _, _ => doc

/-- `applyFieldsToTemplate` (src/index.ts:144-181) on the parsed document
(parsing and serialization of the HTML text are external collaborators). -/
def applyFieldsToTemplate (doc : Doc) (values : List (String × List Char)) :
    Doc × List (String × List Char) :=
  let wf := writeFields doc values
  (applyTitle wf.1, wf.2)

/-- The environment-derived repository configuration (src/index.ts:57-66),
passed explicitly here. -/
structure RepoConfig where
  owner : String
  repo : String
  baseBranch : String
  pat : String
  commitAuthorName : String
  commitAuthorEmail : String
  targetFilePath : String
deriving DecidableEq

/-- An HTTP request to the GitHub API host (the fixed
`https://api.github.com` base is left implicit in `path`). -/
structure HttpRequest where
  method : String
  path : String
  headers : List (String × String)
  body : Option Js

/-- An HTTP response; `jsonData` is the parsed form `response.json()`
yields, `body` the text `response.text()` yields. -/
structure HttpResponse where
  status : Nat
  body : String
  jsonData : Js

/-- `Response.ok`: status in the 2xx range. -/
def respOk (r : HttpResponse) : Bool := 200 ≤ r.status && r.status < 300

/-- Observable effects of one inbound request: network calls, console
logging, and the template-file read. -/
inductive Event where
  | request (req : HttpRequest) (resp : HttpResponse)
  | logWarn (message : String) (details : List (String × String))
  | logError (message : String) (details : List (String × String))
  | templateRead

/-- The `RequestInit` fields the code uses. -/
structure ReqInit where
  method : String := "GET"
  headers : List (String × String) := []
  body : Option Js := none

/-- The network oracle: what the upstream server answers to each request. -/
abbrev Net := HttpRequest → HttpResponse

/-- Characters `encodeURIComponent` leaves unescaped. -/
def isUriUnreserved (c : Char) : Bool :=
  c.isAlpha || c.isDigit || c == '-' || c == '_' || c == '.' || c == '!' ||
  c == '~' || c == '*' || c == Char.ofNat 39 || c == '(' || c == ')'

/-- Uppercase hexadecimal digit. -/
def hexDigitChar (n : Nat) : Char :=
  if n < 10 then Char.ofNat (48 + n) else Char.ofNat (55 + n)

/-- UTF-8 encoding of one character, as byte values. -/
def utf8Bytes (c : Char) : List Nat :=
  let n := c.toNat
  if n < 128 then [n]
  else if n < 2048 then [192 + n / 64, 128 + n % 64]
  else if n < 65536 then [224 + n / 4096, 128 + n / 64 % 64, 128 + n % 64]
  else [240 + n / 262144, 128 + n / 4096 % 64, 128 + n / 64 % 64, 128 + n % 64]

/-- Percent-escape of one byte. -/
def percentByte (b : Nat) : List Char := ['%', hexDigitChar (b / 16), hexDigitChar (b % 16)]

/-- JS `encodeURIComponent`. -/
def encodeURIComponent (s : String) : String :=
  String.mk ((s.data.map (fun c =>
    if isUriUnreserved c then [c] else (utf8Bytes c).flatMap percentByte)).flatten)

/-- `encodeGitHubPath` (src/index.ts:183-187): encode each `/`-separated
segment. -/
def encodeGitHubPath (path : String) : String :=
  String.intercalate "/" ((path.splitOn "/").map encodeURIComponent)

/-- The base64 alphabet. -/
def base64Chars : List Char :=
  "ABCDEFGHIJKLMNOPQRSTUVWXYZabcdefghijklmnopqrstuvwxyz0123456789+/".data

/-- One base64 digit. -/
def base64Digit (n : Nat) : Char := base64Chars.getD n 'A'

/-- Standard base64 of a byte sequence (`Buffer.toString("base64")`). -/
def base64Encode : List Nat → List Char
  | [] => []
  | [a] => [base64Digit (a / 4), base64Digit (a % 4 * 16), '=', '=']
  | [a, b] => [base64Digit (a / 4), base64Digit (a % 4 * 16 + b / 16),
               base64Digit (b % 16 * 4), '=']
  | a :: b :: c :: rest =>
      base64Digit (a / 4) :: base64Digit (a % 4 * 16 + b / 16) ::
      base64Digit (b % 16 * 4 + c / 64) :: base64Digit (c % 64) :: base64Encode rest

/-- UTF-8 bytes of a string (`Buffer.from(content, "utf8")`). -/
def utf8Encode (s : String) : List Nat := s.data.flatMap utf8Bytes

/-- The three fixed headers `githubPatRequest` always sends
(src/index.ts:279-281). -/
def apiBaseHeaders (env : RepoConfig) : List (String × String) :=
  [("Accept", "application/vnd.github+json"),
   ("Authorization", "token " ++ env.pat),
   ("X-GitHub-Api-Version", "2022-11-28")]

/-- Object-spread merge `{ ...fixed, ...init.headers }`: a caller-supplied
header with the same name overrides the fixed one. -/
def mergeHeaders (base extra : List (String × String)) : List (String × String) :=
  base.filter (fun h => (extra.find? (fun e => e.1 == h.1)).isNone) ++ extra

/-- The request `githubPatRequest` would send for a given path and init. -/
def mkGitHubRequest (env : RepoConfig) (path : String) (init : ReqInit) : HttpRequest :=
  { method := init.method, path := path,
    headers := mergeHeaders (apiBaseHeaders env) init.headers, body := init.body }

/-- The diagnostic log `githubPatRequest` emits on a non-2xx response
(src/index.ts:286-292): it carries the status, the path and the response
body. -/
def ghFailLog (path : String) (resp : HttpResponse) : Event :=
  .logError ("GitHub PAT request failed: " ++ toString resp.status ++ " " ++ path)
    [("body", resp.body)]

/-- `githubPatRequest` (src/index.ts:268-295): throws before any network
call when no PAT is configured; otherwise sends the merged-header request
and returns the response (logging on non-2xx, never throwing on it). -/
def githubPatRequest (env : RepoConfig) (net : Net) (st : List Event) (path : String)
    (init : ReqInit) : List Event × Except String HttpResponse :=
  if env.pat = "" then (st, .error "GitHub PAT is not configured.")
  else
    let req := mkGitHubRequest env path init
    let resp := net req
    let st1 := st ++ [Event.request req resp]
    if respOk resp then (st1, .ok resp) else (st1 ++ [ghFailLog path resp], .ok resp)

/-- `/repos/{owner}/{repo}/contents/{p}` (written here with ++). -/
def contentsPath (env : RepoConfig) (p : String) : String :=
  "/repos/" ++ env.owner ++ "/" ++ env.repo ++ "/contents/" ++ p

/-- The committer/author identity object used by both commits. -/
def commitAuthorJs (env : RepoConfig) : Js :=
  Js.obj [("name", Js.str env.commitAuthorName), ("email", Js.str env.commitAuthorEmail)]

/-- The body of the README `DELETE` request (src/index.ts:225-237). -/
def readmeDeleteBody (env : RepoConfig) (branchName : String) (sha : Js) : Js :=
  Js.obj [("message", Js.str ("chore: remove README for " ++ branchName)),
          ("branch", Js.str branchName), ("sha", sha),
          ("committer", commitAuthorJs env), ("author", commitAuthorJs env)]

/-- `removeReadmeFromBranch` (src/index.ts:189-248): best-effort removal of
`README.md` on the new branch.  Every failure path logs and returns
normally. -/
def removeReadmeFromBranch (env : RepoConfig) (net : Net) (st : List Event)
    (branchName : String) : List Event × Except String Unit :=
  let readmePath := encodeGitHubPath "README.md"
  let g := githubPatRequest env net st
      (contentsPath env readmePath ++ "?ref=" ++ encodeURIComponent branchName)
      { method := "GET" }
  match g.2 with
  | .error e => (g.1, .error e)
  | .ok readmeResponse =>
    if readmeResponse.status = 404 then (g.1, .ok ())
    else if !respOk readmeResponse then
      (g.1 ++ [Event.logWarn "[/github/preview] Unable to load README metadata."
        [("status", toString readmeResponse.status), ("body", readmeResponse.body)]], .ok ())
    else
      let readmeSha := readmeResponse.jsonData.field "sha"
      if jsFalsy readmeSha then
        (g.1 ++ [Event.logWarn "[/github/preview] README metadata missing SHA." []], .ok ())
      else
        let d := githubPatRequest env net g.1 (contentsPath env readmePath)
          { method := "DELETE", headers := [("Content-Type", "application/json")],
            body := some (readmeDeleteBody env branchName (readmeSha.getD Js.null)) }
        match d.2 with
        | .error e => (d.1, .error e)
        | .ok deleteResponse =>
          if !respOk deleteResponse && deleteResponse.status ≠ 404 then
            (d.1 ++ [Event.logWarn "[/github/preview] Failed to delete README."
              [("status", toString deleteResponse.status),
               ("body", deleteResponse.body)]], .ok ())
          else (d.1, .ok ())

/-- `PreviewBranchResult` (src/index.ts:262-266). -/
structure PreviewBranchResult where
  branchName : String
  branchUrl : String
  vercelImportUrl : String
deriving DecidableEq

/-- The base-branch ref path (src/index.ts:306). -/
def baseRefPath (env : RepoConfig) : String :=
  "/repos/" ++ env.owner ++ "/" ++ env.repo ++ "/git/ref/heads/" ++ env.baseBranch

/-- The ref-creation path (src/index.ts:324). -/
def createRefsPath (env : RepoConfig) : String :=
  "/repos/" ++ env.owner ++ "/" ++ env.repo ++ "/git/refs"

/-- The generated branch name (src/index.ts:320): `card-` followed by the
freshly generated random identifier. -/
def previewBranchName (uuid : String) : String := "card-" ++ uuid

/-- The browsable branch URL (src/index.ts:383). -/
def branchUrlOf (env : RepoConfig) (branchName : String) : String :=
  "https://github.com/" ++ env.owner ++ "/" ++ env.repo ++ "/tree/" ++ branchName

/-- The success value of `pushPreviewBranch` (src/index.ts:381-387). -/
def previewResult (env : RepoConfig) (uuid : String) : PreviewBranchResult :=
  { branchName := previewBranchName uuid,
    branchUrl := branchUrlOf env (previewBranchName uuid),
    vercelImportUrl := "https://vercel.com/new/clone?repository-url=" ++
      encodeURIComponent (branchUrlOf env (previewBranchName uuid)) }

/-- The body of the content-commit `PUT` request (src/index.ts:356-368). -/
def contentPutBody (env : RepoConfig) (branchName content commitMessage : String) : Js :=
  Js.obj [("message", Js.str commitMessage),
          ("content", Js.str (String.mk (base64Encode (utf8Encode content)))),
          ("branch", Js.str branchName),
          ("committer", commitAuthorJs env), ("author", commitAuthorJs env)]

/-- `baseRefData?.object?.sha`. -/
def baseShaOf (j : Js) : Option Js := (j.field "object").bind (fun o => o.field "sha")

/-- `pushPreviewBranch` (src/index.ts:297-388): resolve base ref, create the
branch, best-effort README removal, then commit the rendered content. -/
def pushPreviewBranch (env : RepoConfig) (net : Net) (uuid : String) (st : List Event)
    (content commitMessage : String) : List Event × Except String PreviewBranchResult :=
  if env.owner = "" || env.repo = "" || env.pat = "" then
    (st, .error "GitHub repository configuration is incomplete.")
  else
    let g1 := githubPatRequest env net st (baseRefPath env) { method := "GET" }
    match g1.2 with
    | .error e => (g1.1, .error e)
    | .ok baseRefResponse =>
      if !respOk baseRefResponse then (g1.1, .error "Unable to load base branch reference.")
      else
        let baseSha := baseShaOf baseRefResponse.jsonData
        if jsFalsy baseSha then (g1.1, .error "Base branch reference missing SHA.")
        else
          let branchName := previewBranchName uuid
          let branchRef := "refs/heads/" ++ branchName
          let g2 := githubPatRequest env net g1.1 (createRefsPath env)
            { method := "POST", headers := [("Content-Type", "application/json")],
              body := some (Js.obj [("ref", Js.str branchRef), ("sha", baseSha.getD Js.null)]) }
          match g2.2 with
          | .error e => (g2.1, .error e)
          | .ok createRefResponse =>
            if !respOk createRefResponse then
              (g2.1 ++ [Event.logError "[/github/preview] Failed to create branch."
                [("status", toString createRefResponse.status),
                 ("body", createRefResponse.body)]],
               .error "Unable to create preview branch.")
            else
              let rm := removeReadmeFromBranch env net g2.1 branchName
              match rm.2 with
              | .error e => (rm.1, .error e)
              | .ok _ =>
                let encodedPath := encodeGitHubPath env.targetFilePath
                let g3 := githubPatRequest env net rm.1 (contentsPath env encodedPath)
                  { method := "PUT", headers := [("Content-Type", "application/json")],
                    body := some (contentPutBody env branchName content commitMessage) }
                match g3.2 with
                | .error e => (g3.1, .error e)
                | .ok updateResponse =>
                  if !respOk updateResponse then
                    (g3.1 ++ [Event.logError "[/github/preview] Failed to update template file."
                      [("status", toString updateResponse.status),
                       ("body", updateResponse.body)]],
                     .error "Unable to update template file.")
                  else (g3.1, .ok (previewResult env uuid))

/-- The timestamped default commit message (src/index.ts:496); `now` stands
for `new Date().toISOString()`. -/
def defaultCommitMessage (now : String) : String := "chore: update card preview " ++ now

/-- The commit-message selection (src/index.ts:493-496): a string which is
non-blank after trimming is trimmed and sliced to 250 characters; anything
else falls back to the timestamped default. -/
def computeCommitMessage (m : Option Js) (now : String) : String :=
  match m with
  | some (Js.str s) =>
      if !(trimWs s.data).isEmpty then String.mk ((trimWs s.data).take 250)
      else defaultCommitMessage now
  | _ => defaultCommitMessage now

/-- The response the `/github/preview` route sends. -/
inductive HandlerOutcome where
  | text (body : String) (status : Nat)
  | jsonOk (branch branchUrl vercelImportUrl : String)
      (appliedFields : List (String × List Char))

/-- The `app.post("/github/preview")` handler (src/index.ts:462-513).
`serialize` abstracts the external HTML serializer, `template` the
template-file read (`none` = read failure), `body` the parsed JSON request
body (`none` = parse failure), `uuid` the generated random identifier and
`now` the current timestamp. -/
def previewHandler (serialize : Doc → String) (env : RepoConfig) (net : Net)
    (uuid now : String) (template : Option Doc) (body : Option Js) :
    List Event × HandlerOutcome :=
  if env.owner = "" || env.repo = "" || env.pat = "" then
    ([Event.logError "GitHub repository configuration is incomplete." []],
     .text "GitHub repository not configured." 500)
  else
    match body with
    | none => ([], .text "Invalid JSON body." 400)
    | some j =>
      let normalizedFields := normalizeFieldValues ((j.field "fields").getD Js.null)
      if normalizedFields.isEmpty then ([], .text "No valid fields provided." 400)
      else
        match template with
        | none =>
            ([Event.templateRead,
              Event.logError "Failed to read preview template from disk." []],
             .text "Unable to load template file." 500)
        | some templateDoc =>
          let ap := applyFieldsToTemplate templateDoc normalizedFields
          let commitMessage := computeCommitMessage (j.field "commitMessage") now
          let push := pushPreviewBranch env net uuid [Event.templateRead]
            (serialize ap.1) commitMessage
          match push.2 with
          | .ok r => (push.1, .jsonOk r.branchName r.branchUrl r.vercelImportUrl ap.2)
          | .error _ =>
              (push.1 ++ [Event.logError "[/github/preview] Failed to publish preview." []],
               .text "Failed to publish preview." 500)

/-- The list's first character, if any, is not whitespace. -/
def headNotWs : List Char → Bool
  | [] => true
  | c :: _ => !isWs c

/-- The list's final character, if any, is not whitespace. -/
def lastNotWs (l : List Char) : Bool :=
  match l.getLast? with
  | none => true
  | some c => !isWs c

/-- Fully normalized text: every whitespace character is a single space with
a non-whitespace successor (no two adjacent whitespace characters).  This is
the shape `collapseWs` produces. -/
inductive NormedWs : List Char → Prop where
  | nil : NormedWs []
  | nonws {c : Char} {cs : List Char} : isWs c = false → NormedWs cs → NormedWs (c :: cs)
  | wsSingle {cs : List Char} : headNotWs cs = true → NormedWs cs → NormedWs (' ' :: cs)

/-- Header lookup by name. -/
def lookupHeader (hs : List (String × String)) (n : String) : Option String :=
  (hs.find? (fun h => h.1 == n)).map (fun h => h.2)

/-- The trace `githubPatRequest` appends for one call: the request/response
pair, plus the diagnostic log when the status is not 2xx. -/
def ghEvents (env : RepoConfig) (net : Net) (path : String) (init : ReqInit) : List Event :=
  Event.request (mkGitHubRequest env path init) (net (mkGitHubRequest env path init)) ::
    (if respOk (net (mkGitHubRequest env path init)) then []
     else [ghFailLog path (net (mkGitHubRequest env path init))])

/-- The base-branch ref `GET` request of `pushPreviewBranch`. -/
def baseRefReq (env : RepoConfig) : HttpRequest :=
  mkGitHubRequest env (baseRefPath env) { method := "GET" }

/-- The branch-creation `POST` request of `pushPreviewBranch`, given the sha
taken from the base-ref response. -/
def createRefReq (env : RepoConfig) (uuid : String) (sha : Js) : HttpRequest :=
  mkGitHubRequest env (createRefsPath env)
    { method := "POST", headers := [("Content-Type", "application/json")],
      body := some (Js.obj [("ref", Js.str ("refs/heads/" ++ previewBranchName uuid)),
                            ("sha", sha)]) }

/-- The README metadata `GET` request of `removeReadmeFromBranch`. -/
def readmeGetReq (env : RepoConfig) (branchName : String) : HttpRequest :=
  mkGitHubRequest env
    (contentsPath env (encodeGitHubPath "README.md") ++ "?ref=" ++ encodeURIComponent branchName)
    { method := "GET" }

/-- The content-commit `PUT` request of `pushPreviewBranch`. -/
def putContentsReq (env : RepoConfig) (uuid content commitMessage : String) : HttpRequest :=
  mkGitHubRequest env (contentsPath env (encodeGitHubPath env.targetFilePath))
    { method := "PUT", headers := [("Content-Type", "application/json")],
      body := some (contentPutBody env (previewBranchName uuid) content commitMessage) }

/-- The registry entry for `personFirst`. -/
def personFirstConfig : TemplateFieldConfig :=
  { id := "personFirst", selector := some ".card__person-first" }

/-- The registry entry for `personLast`. -/
def personLastConfig : TemplateFieldConfig :=
  { id := "personLast", selector := some ".card__person-last" }

/-- A concrete repository configuration used for evaluation witnesses. -/
def envW : RepoConfig :=
  { owner := "o", repo := "r", baseBranch := "main", pat := "p",
    commitAuthorName := "n", commitAuthorEmail := "e", targetFilePath := "index.html" }

/-- A concrete network oracle on which every step succeeds: `GET`s answer
200 with a sha-bearing JSON object, other methods answer 201. -/
def netW : Net := fun req =>
  if req.method = "GET" then
    { status := 200, body := "",
      jsonData := Js.obj [("object", Js.obj [("sha", Js.str "abc")]), ("sha", Js.str "def")] }
  else { status := 201, body := "", jsonData := Js.null }

/-- A network oracle whose `GET` payloads carry a nested `object.sha` (so
base-ref resolution succeeds) but no top-level `sha` field (so the README
metadata read comes back sha-less). -/
def netNoShaW : Net := fun req =>
  if req.method = "GET" then
    { status := 200, body := "",
      jsonData := Js.obj [("object", Js.obj [("sha", Js.str "abc")])] }
  else { status := 201, body := "", jsonData := Js.null }

/-- A concrete serializer stand-in for evaluation witnesses. -/
def serializeW : Doc → String := fun _ => "html"

/-- A concrete template document: person fields, a `.card__title` field node
and a `<title>` element. -/
def docW : Doc :=
  [((".card__person-first", 0), { text := "x".data }),
   ((".card__person-last", 0), { text := "y".data }),
   ((".card__phone", 0), { text := [] }),
   (("title", 0), { text := "orig".data })]

/-- A template document whose `personLast` node is empty: used to exercise
the derived-title step with exactly one non-empty person field. -/
def docOneEmptyW : Doc :=
  [((".card__person-first", 0), { text := "a".data }),
   ((".card__person-last", 0), { text := [] }),
   (("title", 0), { text := "orig".data })]

/-- A concrete parsed request body for evaluation witnesses. -/
def bodyW : Js :=
  Js.obj [("fields", Js.obj [("phone", Js.str "1"), ("bogus", Js.str "2")]),
          ("commitMessage", Js.str "  hi  there ")]

/-- The text content of the document's `<title>` element, if present. -/
def titleText (doc : Doc) : Option (List Char) :=
  (getNode doc "title" 0).map (fun n => n.text)

theorem isWs_space : isWs ' ' = true := by decide

theorem headNotWs_collapseWsAux_true (l : List Char) :
    headNotWs (collapseWsAux true l) = true := by
  induction l with
  | nil => rfl
  | cons c cs ih =>
    cases hc : isWs c with
    | true => simpa [collapseWsAux, hc] using ih
    | false => simp [collapseWsAux, hc, headNotWs]

theorem normedWs_collapseWsAux (l : List Char) : ∀ b, NormedWs (collapseWsAux b l) := by
  induction l with
  | nil => intro b; exact NormedWs.nil
  | cons c cs ih =>
    intro b
    cases hc : isWs c with
    | false =>
      simpa [collapseWsAux, hc] using NormedWs.nonws hc (ih false)
    | true =>
      cases b with
      | true => simpa [collapseWsAux, hc] using ih true
      | false =>
        simpa [collapseWsAux, hc] using
          NormedWs.wsSingle (headNotWs_collapseWsAux_true cs) (ih true)

theorem collapseWsAux_eq_self {l : List Char} (h : NormedWs l) :
    collapseWsAux false l = l ∧ (headNotWs l = true → collapseWsAux true l = l) := by
  induction h with
  | nil => exact ⟨rfl, fun _ => rfl⟩
  | @nonws c cs hc _ ih =>
    refine ⟨?_, fun _ => ?_⟩ <;> simp [collapseWsAux, hc, ih.1]
  | @wsSingle cs hhd _ ih =>
    refine ⟨?_, fun hcontra => ?_⟩
    · simp only [collapseWsAux, isWs_space, if_pos]
      simp [ih.2 hhd]
    · simp [headNotWs, isWs_space] at hcontra

theorem normedWs_dropWhile {l : List Char} (h : NormedWs l) :
    NormedWs (l.dropWhile isWs) := by
  induction h with
  | nil => exact NormedWs.nil
  | @nonws c cs hc hn _ => simpa [List.dropWhile_cons, hc] using NormedWs.nonws hc hn
  | @wsSingle cs _ _ ih => simpa [List.dropWhile_cons, isWs_space] using ih

theorem headNotWs_dropWhile (l : List Char) : headNotWs (l.dropWhile isWs) = true := by
  induction l with
  | nil => rfl
  | cons c cs ih =>
    cases hc : isWs c with
    | true => simpa [List.dropWhile_cons, hc] using ih
    | false => simp [List.dropWhile_cons, hc, headNotWs]

theorem headNotWs_trimRightWs {l : List Char} (h : headNotWs l = true) :
    headNotWs (trimRightWs l) = true := by
  cases l with
  | nil => rfl
  | cons c cs =>
    simp only [trimRightWs]
    split
    · rfl
    · simpa [headNotWs] using h

theorem normedWs_trimRightWs {l : List Char} (h : NormedWs l) :
    NormedWs (trimRightWs l) := by
  induction h with
  | nil => exact NormedWs.nil
  | @nonws c cs hc _ ih =>
    simp only [trimRightWs]
    split
    · exact NormedWs.nil
    · exact NormedWs.nonws hc ih
  | @wsSingle cs hhd _ ih =>
    simp only [trimRightWs]
    split
    · exact NormedWs.nil
    · exact NormedWs.wsSingle (headNotWs_trimRightWs hhd) ih

theorem trimRightWs_idem (l : List Char) : trimRightWs (trimRightWs l) = trimRightWs l := by
  induction l with
  | nil => rfl
  | cons c cs ih =>
    simp only [trimRightWs]
    split
    · rfl
    · rename_i hcond
      simp only [trimRightWs, ih]
      rw [if_neg hcond]

theorem dropWhile_eq_self_of_headNotWs {l : List Char} (h : headNotWs l = true) :
    l.dropWhile isWs = l := by
  cases l with
  | nil => rfl
  | cons c cs =>
    simp only [headNotWs, Bool.not_eq_true'] at h
    simp [List.dropWhile_cons, h]

theorem headNotWs_trimWs (l : List Char) : headNotWs (trimWs l) = true := by
  unfold trimWs
  exact headNotWs_trimRightWs (headNotWs_dropWhile l)

theorem trimWs_idem (l : List Char) : trimWs (trimWs l) = trimWs l := by
  have h1 : List.dropWhile isWs (trimWs l) = trimWs l :=
    dropWhile_eq_self_of_headNotWs (headNotWs_trimWs l)
  show trimRightWs (List.dropWhile isWs (trimWs l)) = trimWs l
  rw [h1]
  show trimRightWs (trimRightWs (List.dropWhile isWs l)) = trimWs l
  rw [trimRightWs_idem]
  rfl

theorem normedWs_trimWs {l : List Char} (h : NormedWs l) : NormedWs (trimWs l) := by
  unfold trimWs
  exact normedWs_trimRightWs (normedWs_dropWhile h)

theorem normedWs_sanitizeStr (l : List Char) : NormedWs (sanitizeStr l) := by
  unfold sanitizeStr collapseWs
  exact normedWs_trimWs (normedWs_collapseWsAux l false)

theorem headNotWs_sanitizeStr (l : List Char) : headNotWs (sanitizeStr l) = true :=
  headNotWs_trimWs _

theorem collapseWs_eq_self_of_normed {l : List Char} (h : NormedWs l) :
    collapseWs l = l := (collapseWsAux_eq_self h).1

theorem trimWs_eq_self_of_trimmed (l : List Char) :
    trimWs (trimWs l) = trimWs l := trimWs_idem l

theorem sanitizeStr_idem (l : List Char) :
    sanitizeStr (sanitizeStr l) = sanitizeStr l := by
  have hn : NormedWs (sanitizeStr l) := normedWs_sanitizeStr l
  have h1 : sanitizeStr (sanitizeStr l) = trimWs (sanitizeStr l) := by
    unfold sanitizeStr
    rw [show collapseWs (trimWs (collapseWs l)) = trimWs (collapseWs l) from
      collapseWs_eq_self_of_normed hn]
  rw [h1]
  show trimWs (trimWs (collapseWs l)) = trimWs (collapseWs l)
  exact trimWs_idem _

theorem normedWs_ws_eq_space {l : List Char} (h : NormedWs l) :
    ∀ c ∈ l, isWs c = true → c = ' ' := by
  induction h with
  | nil => intro c hc; simp at hc
  | @nonws c cs hc _ ih =>
    intro d hd hw
    rcases List.mem_cons.mp hd with rfl | hd'
    · rw [hc] at hw; cases hw
    · exact ih d hd' hw
  | @wsSingle cs _ _ ih =>
    intro d hd hw
    rcases List.mem_cons.mp hd with rfl | hd'
    · rfl
    · exact ih d hd' hw

theorem normedWs_chain' {l : List Char} (h : NormedWs l) :
    List.Chain' (fun a b => isWs a = false ∨ isWs b = false) l := by
  induction h with
  | nil => exact List.chain'_nil
  | @nonws c cs hc _ ih =>
    cases cs with
    | nil => exact List.chain'_singleton c
    | cons d ds => exact List.chain'_cons.mpr ⟨Or.inl hc, ih⟩
  | @wsSingle cs hhd _ ih =>
    cases cs with
    | nil => exact List.chain'_singleton _
    | cons d ds =>
      refine List.chain'_cons.mpr ⟨Or.inr ?_, ih⟩
      simpa [headNotWs] using hhd

theorem lastNotWs_trimRightWs (l : List Char) : lastNotWs (trimRightWs l) = true := by
  induction l with
  | nil => rfl
  | cons c cs ih =>
    simp only [trimRightWs]
    split
    · rfl
    · rename_i hcond
      cases hr : trimRightWs cs with
      | nil =>
        have hc : isWs c = false := by
          rw [hr] at hcond
          simpa using hcond
        simp [lastNotWs, hc]
      | cons d ds =>
        rw [hr] at ih
        simpa [lastNotWs, List.getLast?_cons_cons] using ih

theorem lastNotWs_trimWs (l : List Char) : lastNotWs (trimWs l) = true :=
  lastNotWs_trimRightWs _

theorem lastNotWs_sanitizeStr (l : List Char) : lastNotWs (sanitizeStr l) = true :=
  lastNotWs_trimRightWs _

theorem trimRightWs_eq_self_of_lastNotWs :
    ∀ {l : List Char}, lastNotWs l = true → trimRightWs l = l := by
  intro l
  induction l with
  | nil => intro _; rfl
  | cons c cs ih =>
    intro h
    cases cs with
    | nil =>
      have hc : isWs c = false := by simpa [lastNotWs] using h
      simp [trimRightWs, hc]
    | cons d ds =>
      have h' : lastNotWs (d :: ds) = true := by
        simpa [lastNotWs, List.getLast?_cons_cons] using h
      have hr := ih h'
      show (if (trimRightWs (d :: ds)).isEmpty && isWs c then []
            else c :: trimRightWs (d :: ds)) = c :: d :: ds
      rw [hr]
      simp

theorem trimWs_eq_self {l : List Char} (h1 : headNotWs l = true) (h2 : lastNotWs l = true) :
    trimWs l = l := by
  show trimRightWs (List.dropWhile isWs l) = l
  rw [dropWhile_eq_self_of_headNotWs h1]
  exact trimRightWs_eq_self_of_lastNotWs h2

theorem filter_collapseWsAux (l : List Char) : ∀ b,
    (collapseWsAux b l).filter (fun c => !isWs c) = l.filter (fun c => !isWs c) := by
  induction l with
  | nil => intro b; rfl
  | cons c cs ih =>
    intro b
    cases hc : isWs c with
    | false => simp [collapseWsAux, hc, List.filter_cons, ih]
    | true => cases b <;> simp [collapseWsAux, hc, List.filter_cons, isWs_space, ih]

theorem filter_dropWhileWs (l : List Char) :
    (l.dropWhile isWs).filter (fun c => !isWs c) = l.filter (fun c => !isWs c) := by
  induction l with
  | nil => rfl
  | cons c cs ih =>
    cases hc : isWs c <;> simp [List.dropWhile_cons, hc, List.filter_cons, ih]

theorem filter_trimRightWs (l : List Char) :
    (trimRightWs l).filter (fun c => !isWs c) = l.filter (fun c => !isWs c) := by
  induction l with
  | nil => rfl
  | cons c cs ih =>
    simp only [trimRightWs]
    split
    · rename_i hcond
      have hpair : (trimRightWs cs).isEmpty = true ∧ isWs c = true := by simpa using hcond
      have h1 : trimRightWs cs = [] := by simpa using hpair.1
      have h3 : cs.filter (fun c => !isWs c) = [] := by
        rw [← ih, h1]; rfl
      simp [List.filter_cons, hpair.2, h3]
    · simp [List.filter_cons, ih]

theorem filter_sanitizeStr (l : List Char) :
    (sanitizeStr l).filter (fun c => !isWs c) = l.filter (fun c => !isWs c) := by
  show ((collapseWs l).dropWhile isWs |> trimRightWs).filter (fun c => !isWs c) = _
  rw [filter_trimRightWs, filter_dropWhileWs]
  exact filter_collapseWsAux l false

theorem char_toNat_ofNat (n : Nat) (h : n.isValidChar) : (Char.ofNat n).toNat = n := by
  simp only [Char.ofNat, h, dif_pos, Char.ofNatAux, Char.toNat, UInt32.toNat,
    BitVec.toNat_ofNatLt]

theorem isWs_charUpper (c : Char) (h : isWs c = false) : isWs (charUpper c) = false := by
  unfold charUpper
  split
  · rename_i hr
    obtain ⟨h1, h2⟩ := hr
    have hv : Nat.isValidChar (c.toNat - 32) := Or.inl (by omega)
    simp only [isWs, char_toNat_ofNat _ hv]
    simp only [Bool.or_eq_false_iff, decide_eq_false_iff_not]
    omega
  · exact h

theorem isWs_charLower (c : Char) (h : isWs c = false) : isWs (charLower c) = false := by
  unfold charLower
  split
  · rename_i hr
    obtain ⟨h1, h2⟩ := hr
    have hv : Nat.isValidChar (c.toNat + 32) := Or.inl (by omega)
    simp only [isWs, char_toNat_ofNat _ hv]
    simp only [Bool.or_eq_false_iff, decide_eq_false_iff_not]
    omega
  · exact h

theorem headNotWs_capitalizeWord {l : List Char} (h : headNotWs l = true) :
    headNotWs (capitalizeWord l) = true := by
  cases l with
  | nil => rfl
  | cons c cs =>
    have hc : isWs c = false := by simpa [headNotWs] using h
    simpa [capitalizeWord, headNotWs] using isWs_charUpper c hc

theorem lastNotWs_map_charLower :
    ∀ l : List Char, lastNotWs l = true → lastNotWs (l.map charLower) = true := by
  intro l
  induction l with
  | nil => intro _; rfl
  | cons c cs ih =>
    intro h
    cases cs with
    | nil =>
      have hc : isWs c = false := by simpa [lastNotWs] using h
      simpa [lastNotWs] using isWs_charLower c hc
    | cons d ds =>
      have h' := ih (by simpa [lastNotWs, List.getLast?_cons_cons] using h)
      simpa [lastNotWs, List.getLast?_cons_cons] using h'

theorem lastNotWs_capitalizeWord {l : List Char} (h : lastNotWs l = true) :
    lastNotWs (capitalizeWord l) = true := by
  cases l with
  | nil => rfl
  | cons c cs =>
    cases cs with
    | nil =>
      have hc : isWs c = false := by simpa [lastNotWs] using h
      simpa [capitalizeWord, lastNotWs] using isWs_charUpper c hc
    | cons d ds =>
      have h' : lastNotWs (d :: ds) = true := by
        simpa [lastNotWs, List.getLast?_cons_cons] using h
      have h2 := lastNotWs_map_charLower (d :: ds) h'
      simpa [capitalizeWord, lastNotWs, List.getLast?_cons_cons] using h2

theorem capitalizeWord_ne_nil {l : List Char} (h : l ≠ []) : capitalizeWord l ≠ [] := by
  cases l with
  | nil => cases h rfl
  | cons c cs => simp [capitalizeWord]

theorem headNotWs_append {l r : List Char} (hl : l ≠ []) (h : headNotWs l = true) :
    headNotWs (l ++ r) = true := by
  cases l with
  | nil => cases hl rfl
  | cons c cs => simpa [headNotWs] using h

theorem lastNotWs_append {l r : List Char} (hr : r ≠ []) (h : lastNotWs r = true) :
    lastNotWs (l ++ r) = true := by
  have hg : (l ++ r).getLast? = r.getLast? := by
    rw [List.getLast?_append]
    cases hx : r.getLast? with
    | some e => rfl
    | none => cases hr (List.getLast?_eq_none_iff.mp hx)
  simpa [lastNotWs, hg] using h

theorem computedTitle_both {first last : List Char}
    (hf : first ≠ []) (hl : last ≠ [])
    (hfh : headNotWs first = true) (hfl : lastNotWs first = true)
    (hlh : headNotWs last = true) (hll : lastNotWs last = true) :
    computedTitle first last = capitalizeWord first ++ ' ' :: capitalizeWord last := by
  unfold computedTitle
  rw [show [first, last].filter (fun l => !l.isEmpty) = [first, last] by
    simp [List.filter_cons, List.isEmpty_eq_true, hf, hl]]
  simp only [List.map_cons, List.map_nil]
  rw [show List.intercalate [' '] [capitalizeWord first, capitalizeWord last] =
      capitalizeWord first ++ ' ' :: capitalizeWord last by
    simp [List.intercalate, List.intersperse]]
  have hcl : capitalizeWord last ≠ [] := capitalizeWord_ne_nil hl
  have h1 : lastNotWs (capitalizeWord last) = true := lastNotWs_capitalizeWord hll
  have h2 : lastNotWs (' ' :: capitalizeWord last) = true := by
    cases hx : capitalizeWord last with
    | nil => cases hcl hx
    | cons e es => rw [hx] at h1; simpa [lastNotWs, List.getLast?_cons_cons] using h1
  exact trimWs_eq_self
    (headNotWs_append (capitalizeWord_ne_nil hf) (headNotWs_capitalizeWord hfh))
    (lastNotWs_append (by simp) h2)

theorem computedTitle_left {first : List Char}
    (hf : first ≠ []) (hfh : headNotWs first = true) (hfl : lastNotWs first = true) :
    computedTitle first [] = capitalizeWord first := by
  unfold computedTitle
  rw [show [first, ([] : List Char)].filter (fun l => !l.isEmpty) = [first] by
    simp [List.filter_cons, List.isEmpty_eq_true, hf]]
  simp only [List.map_cons, List.map_nil]
  rw [show List.intercalate [' '] [capitalizeWord first] = capitalizeWord first by
    simp [List.intercalate, List.intersperse]]
  exact trimWs_eq_self (headNotWs_capitalizeWord hfh) (lastNotWs_capitalizeWord hfl)

theorem computedTitle_right {last : List Char}
    (hl : last ≠ []) (hlh : headNotWs last = true) (hll : lastNotWs last = true) :
    computedTitle [] last = capitalizeWord last := by
  unfold computedTitle
  rw [show [([] : List Char), last].filter (fun l => !l.isEmpty) = [last] by
    simp [List.filter_cons, List.isEmpty_eq_true, hl]]
  simp only [List.map_cons, List.map_nil]
  rw [show List.intercalate [' '] [capitalizeWord last] = capitalizeWord last by
    simp [List.intercalate, List.intersperse]]
  exact trimWs_eq_self (headNotWs_capitalizeWord hlh) (lastNotWs_capitalizeWord hll)

theorem computedTitle_nil_nil : computedTitle [] [] = [] := by decide

theorem mapGet_personFirst : TEMPLATE_FIELD_MAP_get "personFirst" = some personFirstConfig := by
  decide

theorem mapGet_personLast : TEMPLATE_FIELD_MAP_get "personLast" = some personLastConfig := by
  decide

theorem applyTitle_eq (doc : Doc) :
    applyTitle doc =
      (if (computedTitle (sanitizeStr (readTemplateField doc personFirstConfig))
            (sanitizeStr (readTemplateField doc personLastConfig))).isEmpty then doc
       else setNodeText doc "title" 0
         (computedTitle (sanitizeStr (readTemplateField doc personFirstConfig))
            (sanitizeStr (readTemplateField doc personLastConfig)))) := by
  unfold applyTitle
  rw [mapGet_personFirst, mapGet_personLast]

/-- C1 (amended): in `applyFieldsToTemplate` the derived title is computed
from the post-write, re-sanitized `personFirst`/`personLast` fields read back
from the document; whenever both are non-empty the title node's text is
overwritten with `capitalize(first) ++ " " ++ capitalize(last)`; the title is
left untouched only when both are empty, and when exactly one is non-empty
the title is overwritten with that one capitalized. -/
theorem derived_title_spec (doc : Doc) (values : List (String × List Char)) (d : Doc) :
    (applyFieldsToTemplate doc values).1 = applyTitle (writeFields doc values).1 ∧
    ((sanitizeStr (readTemplateField d personFirstConfig) ≠ [] ∧
      sanitizeStr (readTemplateField d personLastConfig) ≠ []) →
      applyTitle d = setNodeText d "title" 0
        (capitalizeWord (sanitizeStr (readTemplateField d personFirstConfig)) ++
         ' ' :: capitalizeWord (sanitizeStr (readTemplateField d personLastConfig)))) ∧
    ((sanitizeStr (readTemplateField d personFirstConfig) = [] ∧
      sanitizeStr (readTemplateField d personLastConfig) = []) → applyTitle d = d) ∧
    ((sanitizeStr (readTemplateField d personFirstConfig) ≠ [] ∧
      sanitizeStr (readTemplateField d personLastConfig) = []) →
      applyTitle d = setNodeText d "title" 0
        (capitalizeWord (sanitizeStr (readTemplateField d personFirstConfig)))) ∧
    ((sanitizeStr (readTemplateField d personFirstConfig) = [] ∧
      sanitizeStr (readTemplateField d personLastConfig) ≠ []) →
      applyTitle d = setNodeText d "title" 0
        (capitalizeWord (sanitizeStr (readTemplateField d personLastConfig)))) := by
  have hFh := headNotWs_sanitizeStr (readTemplateField d personFirstConfig)
  have hFl := lastNotWs_sanitizeStr (readTemplateField d personFirstConfig)
  have hLh := headNotWs_sanitizeStr (readTemplateField d personLastConfig)
  have hLl := lastNotWs_sanitizeStr (readTemplateField d personLastConfig)
  rw [applyTitle_eq d]
  generalize hF : sanitizeStr (readTemplateField d personFirstConfig) = first at *
  generalize hL : sanitizeStr (readTemplateField d personLastConfig) = last at *
  refine ⟨rfl, ?_, ?_, ?_, ?_⟩
  · rintro ⟨hf, hl⟩
    rw [computedTitle_both hf hl hFh hFl hLh hLl]
    rw [if_neg (by simp)]
  · rintro ⟨hf, hl⟩
    rw [hf, hl, computedTitle_nil_nil]
    simp
  · rintro ⟨hf, hl⟩
    rw [hl, computedTitle_left hf hFh hFl]
    rw [if_neg (by simp only [List.isEmpty_eq_true]; exact capitalizeWord_ne_nil hf)]
  · rintro ⟨hf, hl⟩
    rw [hf, computedTitle_right hl hLh hLl]
    rw [if_neg (by simp only [List.isEmpty_eq_true]; exact capitalizeWord_ne_nil hl)]

/-- C1 counterexample: with an empty `personLast` and a non-empty
`personFirst`, the claim as stated demands the title be left untouched, but
the code overwrites it with the capitalized first name. -/
theorem derived_title_counterexample :
    sanitizeStr (readTemplateField (writeFields docOneEmptyW []).1 personLastConfig) = [] ∧
    titleText (writeFields docOneEmptyW []).1 = some "orig".data ∧
    titleText ((applyFieldsToTemplate docOneEmptyW []).1) = some "A".data ∧
    titleText ((applyFieldsToTemplate docOneEmptyW []).1) ≠
      titleText (writeFields docOneEmptyW []).1 := by
  refine ⟨?_, ?_, ?_, ?_⟩ <;> decide

theorem writeFields_applied_aux (values : List (String × List Char)) :
    ∀ (d : Doc) (acc : List (String × List Char)),
      (values.foldl (fun acc kv =>
        match TEMPLATE_FIELD_MAP_get kv.1 with
        | none => acc
        | some config => (writeTemplateField acc.1 config kv.2, acc.2 ++ [kv])) (d, acc)).2 =
      acc ++ values.filter (fun kv => TEMPLATE_FIELD_MAP_has kv.1) := by
  induction values with
  | nil => intro d acc; simp
  | cons kv vs ih =>
    intro d acc
    simp only [List.foldl_cons]
    cases hm : TEMPLATE_FIELD_MAP_get kv.1 with
    | none =>
      have hhas : TEMPLATE_FIELD_MAP_has kv.1 = false := by
        simp [TEMPLATE_FIELD_MAP_has, hm]
      simp only [hm]
      rw [ih]
      simp [List.filter_cons, hhas]
    | some config =>
      have hhas : TEMPLATE_FIELD_MAP_has kv.1 = true := by
        simp [TEMPLATE_FIELD_MAP_has, hm]
      simp only [hm]
      rw [ih]
      simp [List.filter_cons, hhas]

/-- C3: the `applied` map returned by `applyFieldsToTemplate` is exactly the
input entries whose key exists in the field registry, each bound to the value
that was passed in. -/
theorem applied_fields_exact (doc : Doc) (values : List (String × List Char)) :
    (applyFieldsToTemplate doc values).2 =
      values.filter (fun kv => TEMPLATE_FIELD_MAP_has kv.1) ∧
    ∀ k v, ((k, v) ∈ (applyFieldsToTemplate doc values).2 ↔
      ((k, v) ∈ values ∧ TEMPLATE_FIELD_MAP_has k = true)) := by
  have h : (applyFieldsToTemplate doc values).2 =
      values.filter (fun kv => TEMPLATE_FIELD_MAP_has kv.1) := by
    show (writeFields doc values).2 = _
    unfold writeFields
    simpa using writeFields_applied_aux values doc []
  exact ⟨h, fun k v => by rw [h]; simp [List.mem_filter]⟩

/-- C4: `normalizeFieldValues` only ever emits registry keys, each bound to
the sanitized raw value; registry keys present in the raw mapping are kept;
non-mapping input yields the empty map. -/
theorem normalizeFieldValues_spec (raw : Js) :
    (∀ k v, (k, v) ∈ normalizeFieldValues raw →
      TEMPLATE_FIELD_MAP_has k = true ∧
      ∃ entries rv, raw = Js.obj entries ∧ (k, rv) ∈ entries ∧ v = sanitizeFieldValue rv) ∧
    (∀ entries k rv, raw = Js.obj entries → (k, rv) ∈ entries →
      TEMPLATE_FIELD_MAP_has k = true →
      (k, sanitizeFieldValue rv) ∈ normalizeFieldValues raw) ∧
    ((∀ entries, raw ≠ Js.obj entries) → normalizeFieldValues raw = []) := by
  refine ⟨?_, ?_, ?_⟩
  · intro k v hmem
    cases raw with
    | obj entries =>
      simp only [normalizeFieldValues] at hmem
      rcases List.mem_filterMap.mp hmem with ⟨⟨k', rv⟩, hkv, hres⟩
      cases hhas : TEMPLATE_FIELD_MAP_has k' with
      | false => rw [hhas] at hres; simp at hres
      | true =>
        rw [hhas] at hres
        simp only [if_true, Option.some.injEq, Prod.mk.injEq] at hres
        obtain ⟨rfl, rfl⟩ := hres
        exact ⟨hhas, entries, rv, rfl, hkv, rfl⟩
    | null => simp [normalizeFieldValues] at hmem
    | str s => simp [normalizeFieldValues] at hmem
    | other => simp [normalizeFieldValues] at hmem
  · intro entries k rv hraw hmem hhas
    subst hraw
    simp only [normalizeFieldValues]
    exact List.mem_filterMap.mpr ⟨(k, rv), hmem, by simp [hhas]⟩
  · intro hne
    cases raw with
    | obj entries => cases hne entries rfl
    | null => rfl
    | str s => rfl
    | other => rfl

theorem trimRightWs_cons_nonws {c : Char} (X : List Char) (hc : isWs c = false) :
    trimRightWs (c :: X) = c :: trimRightWs X := by
  simp [trimRightWs, hc]

theorem trimRightWs_cons_space (X : List Char) :
    trimRightWs (' ' :: X) =
      (if (trimRightWs X).isEmpty then [] else ' ' :: trimRightWs X) := by
  simp [trimRightWs, isWs_space]

theorem wordsOf_cons (c : Char) (cs : List Char) :
    wordsOf (c :: cs) =
      (if isWs c then wordsOf cs
       else
         match cs with
         | [] => [[c]]
         | d :: _ =>
           if isWs d then [c] :: wordsOf cs
           else
             match wordsOf cs with
             | [] => [[c]]
             | w :: ws => (c :: w) :: ws) := rfl

theorem wordsOf_ws_cons (c : Char) (cs : List Char) (hc : isWs c = true) :
    wordsOf (c :: cs) = wordsOf cs := by
  rw [wordsOf_cons, if_pos hc]

theorem wordsOf_singleton {c : Char} (hc : isWs c = false) : wordsOf [c] = [[c]] := by
  rw [wordsOf_cons, if_neg (by simp [hc])]

theorem wordsOf_break {c d : Char} (ds : List Char)
    (hc : isWs c = false) (hd : isWs d = true) :
    wordsOf (c :: d :: ds) = [c] :: wordsOf (d :: ds) := by
  rw [wordsOf_cons, if_neg (by simp [hc])]
  simp only []
  rw [if_pos hd]

theorem wordsOf_glue {c d : Char} {ds w : List Char} {ws : List (List Char)}
    (hc : isWs c = false) (hd : isWs d = false) (hx : wordsOf (d :: ds) = w :: ws) :
    wordsOf (c :: d :: ds) = (c :: w) :: ws := by
  rw [wordsOf_cons, if_neg (by simp [hc])]
  simp only []
  rw [if_neg (by simp [hd]), hx]

theorem wordsOf_ne_nil {d : Char} {ds : List Char} (hd : isWs d = false) :
    wordsOf (d :: ds) ≠ [] := by
  cases ds with
  | nil => rw [wordsOf_singleton hd]; simp
  | cons e es =>
    cases he : isWs e with
    | true => rw [wordsOf_break es hd he]; simp
    | false =>
      cases hx : wordsOf (e :: es) with
      | nil => exact absurd hx (wordsOf_ne_nil he)
      | cons w ws => rw [wordsOf_glue hd he hx]; simp

theorem intercalate_nil (sep : List Char) :
    List.intercalate sep ([] : List (List Char)) = [] := rfl

theorem intercalate_single (sep x : List Char) : List.intercalate sep [x] = x := by
  simp [List.intercalate, List.intersperse]

theorem intercalate_cons_cons (sep x y : List Char) (ys : List (List Char)) :
    List.intercalate sep (x :: y :: ys) = x ++ sep ++ List.intercalate sep (y :: ys) := by
  simp [List.intercalate, List.intersperse, List.append_assoc]

theorem intercalate_ne_nil_of_head {w : List Char} (ws : List (List Char)) (hw : w ≠ []) :
    List.intercalate [' '] (w :: ws) ≠ [] := by
  cases ws with
  | nil => rw [intercalate_single]; exact hw
  | cons y ys =>
    rw [intercalate_cons_cons]
    cases w with
    | nil => cases hw rfl
    | cons a as => simp

theorem wordsOf_mem_spec : ∀ (l w : List Char), w ∈ wordsOf l →
    w ≠ [] ∧ ∀ c ∈ w, isWs c = false := by
  intro l
  induction l with
  | nil => intro w hw; simp [wordsOf] at hw
  | cons c cs ih =>
    intro w hw
    cases hc : isWs c with
    | true =>
      rw [wordsOf_ws_cons _ _ hc] at hw
      exact ih w hw
    | false =>
      cases cs with
      | nil =>
        rw [wordsOf_singleton hc] at hw
        have hw' : w = [c] := by simpa using hw
        subst hw'
        exact ⟨by simp, fun e he => by rw [List.mem_singleton.mp he]; exact hc⟩
      | cons d ds =>
        cases hd : isWs d with
        | true =>
          rw [wordsOf_break ds hc hd] at hw
          rcases List.mem_cons.mp hw with rfl | hw'
          · exact ⟨by simp, fun e he => by rw [List.mem_singleton.mp he]; exact hc⟩
          · exact ih w hw'
        | false =>
          obtain ⟨v, vs, hv⟩ : ∃ v vs, wordsOf (d :: ds) = v :: vs := by
            cases hx : wordsOf (d :: ds) with
            | nil => exact absurd hx (wordsOf_ne_nil hd)
            | cons v vs => exact ⟨v, vs, rfl⟩
          rw [wordsOf_glue hc hd hv] at hw
          rcases List.mem_cons.mp hw with rfl | hw'
          · have hmemv : v ∈ wordsOf (d :: ds) := by
              rw [hv]; exact List.mem_cons_self v vs
            have hvspec := ih v hmemv
            refine ⟨by simp, fun e he => ?_⟩
            rcases List.mem_cons.mp he with rfl | he'
            · exact hc
            · exact hvspec.2 e he'
          · have hmemw : w ∈ wordsOf (d :: ds) := by
              rw [hv]; exact List.mem_cons.mpr (Or.inr hw')
            exact ih w hmemw

theorem wordsOf_word_append : ∀ (w r : List Char), w ≠ [] → (∀ c ∈ w, isWs c = false) →
    (headNotWs r = false ∨ r = []) → wordsOf (w ++ r) = w :: wordsOf r := by
  intro w
  induction w with
  | nil => intro r h; cases h rfl
  | cons c w' ih =>
    intro r _ hall hr
    have hc : isWs c = false := hall c (List.mem_cons_self c w')
    cases w' with
    | nil =>
      cases r with
      | nil =>
        show wordsOf [c] = [c] :: wordsOf []
        rw [wordsOf_singleton hc]
        rfl
      | cons d ds =>
        have hd : isWs d = true := by
          rcases hr with h | h
          · simpa [headNotWs] using h
          · exact absurd h (by simp)
        show wordsOf (c :: d :: ds) = [c] :: wordsOf (d :: ds)
        exact wordsOf_break ds hc hd
    | cons e w'' =>
      have he : isWs e = false := hall e (by simp)
      have hshape : wordsOf ((e :: w'') ++ r) = (e :: w'') :: wordsOf r :=
        ih r (by simp) (fun x hx => hall x (List.mem_cons.mpr (Or.inr hx))) hr
      show wordsOf (c :: ((e :: w'') ++ r)) = (c :: e :: w'') :: wordsOf r
      rw [show ((e :: w'') ++ r : List Char) = e :: (w'' ++ r) from rfl] at hshape ⊢
      exact wordsOf_glue hc he hshape

theorem dropWhile_collapseWsAux : ∀ (l : List Char) (b : Bool),
    List.dropWhile isWs (collapseWsAux b l) = collapseWsAux true (List.dropWhile isWs l) := by
  intro l
  induction l with
  | nil => intro b; rfl
  | cons c cs ih =>
    intro b
    cases hc : isWs c with
    | true =>
      cases b with
      | true =>
        rw [show collapseWsAux true (c :: cs) = collapseWsAux true cs from by
          simp [collapseWsAux, hc]]
        rw [ih true]
        rw [show List.dropWhile isWs (c :: cs) = List.dropWhile isWs cs from by
          simp [List.dropWhile_cons, hc]]
      | false =>
        rw [show collapseWsAux false (c :: cs) = ' ' :: collapseWsAux true cs from by
          simp [collapseWsAux, hc]]
        rw [show List.dropWhile isWs (' ' :: collapseWsAux true cs) =
            List.dropWhile isWs (collapseWsAux true cs) from by
          simp [List.dropWhile_cons, isWs_space]]
        rw [ih true]
        rw [show List.dropWhile isWs (c :: cs) = List.dropWhile isWs cs from by
          simp [List.dropWhile_cons, hc]]
    | false =>
      have h1 : collapseWsAux b (c :: cs) = c :: collapseWsAux false cs := by
        cases b <;> simp [collapseWsAux, hc]
      rw [h1]
      rw [show List.dropWhile isWs (c :: collapseWsAux false cs) =
          c :: collapseWsAux false cs from by simp [List.dropWhile_cons, hc]]
      rw [show List.dropWhile isWs (c :: cs) = c :: cs from by
        simp [List.dropWhile_cons, hc]]
      rw [show collapseWsAux true (c :: cs) = c :: collapseWsAux false cs from by
        simp [collapseWsAux, hc]]

theorem wordsOf_dropWhile : ∀ l : List Char,
    wordsOf (List.dropWhile isWs l) = wordsOf l := by
  intro l
  induction l with
  | nil => rfl
  | cons c cs ih =>
    cases hc : isWs c with
    | true =>
      rw [show List.dropWhile isWs (c :: cs) = List.dropWhile isWs cs from by
        simp [List.dropWhile_cons, hc]]
      rw [ih, wordsOf_ws_cons _ _ hc]
    | false =>
      rw [show List.dropWhile isWs (c :: cs) = c :: cs from by
        simp [List.dropWhile_cons, hc]]

theorem collapse_words : ∀ l : List Char,
    trimRightWs (collapseWsAux true l) = List.intercalate [' '] (wordsOf l) ∧
    trimRightWs (collapseWsAux false l) =
      (if headNotWs l = true then List.intercalate [' '] (wordsOf l)
       else if wordsOf l = [] then [] else ' ' :: List.intercalate [' '] (wordsOf l)) := by
  intro l
  induction l with
  | nil => exact ⟨rfl, rfl⟩
  | cons c cs ih =>
    cases hc : isWs c with
    | true =>
      constructor
      · rw [wordsOf_ws_cons _ _ hc]
        rw [show collapseWsAux true (c :: cs) = collapseWsAux true cs from by
          simp [collapseWsAux, hc]]
        exact ih.1
      · rw [show headNotWs (c :: cs) = false from by simp [headNotWs, hc]]
        rw [if_neg (by simp)]
        rw [wordsOf_ws_cons _ _ hc]
        rw [show collapseWsAux false (c :: cs) = ' ' :: collapseWsAux true cs from by
          simp [collapseWsAux, hc]]
        rw [trimRightWs_cons_space, ih.1]
        cases hw : wordsOf cs with
        | nil => rw [intercalate_nil]; simp
        | cons w ws =>
          have hmemw : w ∈ wordsOf cs := by rw [hw]; exact List.mem_cons_self w ws
          have hwne : w ≠ [] := (wordsOf_mem_spec cs w hmemw).1
          have hne := intercalate_ne_nil_of_head ws hwne
          rw [if_neg (by simpa [List.isEmpty_iff] using hne), if_neg (by simp)]
    | false =>
      have hP : trimRightWs (collapseWsAux true (c :: cs)) =
          List.intercalate [' '] (wordsOf (c :: cs)) := by
        rw [show collapseWsAux true (c :: cs) = c :: collapseWsAux false cs from by
          simp [collapseWsAux, hc]]
        rw [trimRightWs_cons_nonws _ hc]
        cases cs with
        | nil =>
          rw [wordsOf_singleton hc, intercalate_single]
          rfl
        | cons d ds =>
          cases hd : isWs d with
          | true =>
            rw [ih.2]
            rw [show headNotWs (d :: ds) = false from by simp [headNotWs, hd]]
            rw [if_neg (by simp)]
            rw [wordsOf_break ds hc hd]
            cases hw : wordsOf (d :: ds) with
            | nil => rw [if_pos rfl, intercalate_single]
            | cons w ws =>
              rw [if_neg (by simp)]
              rw [intercalate_cons_cons]
              simp
          | false =>
            rw [ih.2]
            rw [show headNotWs (d :: ds) = true from by simp [headNotWs, hd]]
            rw [if_pos rfl]
            obtain ⟨w, ws, hw⟩ : ∃ w ws, wordsOf (d :: ds) = w :: ws := by
              cases hx : wordsOf (d :: ds) with
              | nil => exact absurd hx (wordsOf_ne_nil hd)
              | cons w ws => exact ⟨w, ws, rfl⟩
            rw [hw]
            rw [wordsOf_glue hc hd hw]
            cases ws with
            | nil => rw [intercalate_single, intercalate_single]
            | cons v vs =>
              rw [intercalate_cons_cons, intercalate_cons_cons]
              simp
      refine ⟨hP, ?_⟩
      rw [show headNotWs (c :: cs) = true from by simp [headNotWs, hc]]
      rw [if_pos rfl]
      rw [show collapseWsAux false (c :: cs) = collapseWsAux true (c :: cs) from by
        simp [collapseWsAux, hc]]
      exact hP

theorem sanitizeStr_eq_words (l : List Char) :
    sanitizeStr l = List.intercalate [' '] (wordsOf l) := by
  show trimRightWs (List.dropWhile isWs (collapseWsAux false l)) = _
  rw [dropWhile_collapseWsAux l false]
  rw [(collapse_words (List.dropWhile isWs l)).1]
  rw [wordsOf_dropWhile l]

/-- C5: `sanitizeFieldValue` maps every non-string to `""`; on a string it
returns exactly the input's maximal non-whitespace runs (`wordsOf`) joined
by a single space — i.e. every run of whitespace characters is collapsed to
one space and the ends are trimmed — where `wordsOf` is pinned down as the
run decomposition by the accompanying conjuncts (whitespace head characters
are dropped, and a leading whitespace-free word is split off whole); in
addition the output has every whitespace character equal to a single space,
no two adjacent whitespace characters, no leading or trailing whitespace,
the same non-whitespace characters in the same order as the input, and
sanitizing is idempotent. -/
theorem sanitizeFieldValue_spec (s : String) :
    sanitizeFieldValue Js.null = [] ∧ sanitizeFieldValue Js.other = [] ∧
    (∀ fields, sanitizeFieldValue (Js.obj fields) = []) ∧
    sanitizeFieldValue (Js.str s) = List.intercalate [' '] (wordsOf s.data) ∧
    (∀ w ∈ wordsOf s.data, w ≠ [] ∧ ∀ c ∈ w, isWs c = false) ∧
    (∀ (c : Char) (r : List Char), isWs c = true → wordsOf (c :: r) = wordsOf r) ∧
    (∀ w r : List Char, w ≠ [] → (∀ c ∈ w, isWs c = false) →
      (headNotWs r = false ∨ r = []) → wordsOf (w ++ r) = w :: wordsOf r) ∧
    (∀ c ∈ sanitizeFieldValue (Js.str s), isWs c = true → c = ' ') ∧
    List.Chain' (fun a b => isWs a = false ∨ isWs b = false)
      (sanitizeFieldValue (Js.str s)) ∧
    headNotWs (sanitizeFieldValue (Js.str s)) = true ∧
    lastNotWs (sanitizeFieldValue (Js.str s)) = true ∧
    (sanitizeFieldValue (Js.str s)).filter (fun c => !isWs c) =
      s.data.filter (fun c => !isWs c) ∧
    sanitizeFieldValue (Js.str (String.mk (sanitizeFieldValue (Js.str s)))) =
      sanitizeFieldValue (Js.str s) := by
  refine ⟨rfl, rfl, fun _ => rfl, ?_, ?_, ?_, ?_, ?_, ?_, ?_, ?_, ?_, ?_⟩
  · exact sanitizeStr_eq_words s.data
  · exact fun w hw => wordsOf_mem_spec s.data w hw
  · exact fun c r hc => wordsOf_ws_cons c r hc
  · exact fun w r h1 h2 h3 => wordsOf_word_append w r h1 h2 h3
  · exact normedWs_ws_eq_space (normedWs_sanitizeStr s.data)
  · exact normedWs_chain' (normedWs_sanitizeStr s.data)
  · exact headNotWs_sanitizeStr s.data
  · exact lastNotWs_sanitizeStr s.data
  · exact filter_sanitizeStr s.data
  · exact sanitizeStr_idem s.data

theorem githubPatRequest_pat_ne (env : RepoConfig) (net : Net) (st : List Event)
    (path : String) (init : ReqInit) (h : env.pat ≠ "") :
    githubPatRequest env net st path init =
      (st ++ ghEvents env net path init, Except.ok (net (mkGitHubRequest env path init))) := by
  unfold githubPatRequest ghEvents
  rw [if_neg h]
  cases hok : respOk (net (mkGitHubRequest env path init)) <;> simp [hok]

theorem find?_filter_of_imp {α : Type} (l : List α) (p q : α → Bool)
    (h : ∀ x, p x = true → q x = true) :
    (l.filter q).find? p = l.find? p := by
  induction l with
  | nil => rfl
  | cons a t ih =>
    cases hq : q a with
    | true =>
      rw [List.filter_cons_of_pos hq]
      cases hp : p a with
      | true => rw [List.find?_cons_of_pos _ hp, List.find?_cons_of_pos _ hp]
      | false =>
        rw [List.find?_cons_of_neg _ (by simp [hp]), List.find?_cons_of_neg _ (by simp [hp])]
        exact ih
    | false =>
      have hp : p a = false := by
        cases hpa : p a with
        | false => rfl
        | true => rw [h a hpa] at hq; cases hq
      rw [List.filter_cons_of_neg (by simp [hq]), List.find?_cons_of_neg _ (by simp [hp])]
      exact ih

theorem lookupHeader_merge_of_some (base extra : List (String × String)) (n : String)
    (h : (extra.find? (fun e => e.1 == n)).isSome = true) :
    lookupHeader (mergeHeaders base extra) n = lookupHeader extra n := by
  unfold lookupHeader mergeHeaders
  rw [List.find?_append]
  have hnone : (base.filter
      (fun hh => (extra.find? (fun e => e.1 == hh.1)).isNone)).find? (fun hh => hh.1 == n)
      = none := by
    rw [List.find?_eq_none]
    intro x hx hpx
    rcases List.mem_filter.mp hx with ⟨_, hfil⟩
    have hxn : x.1 = n := by simpa using hpx
    rw [hxn] at hfil
    cases hopt : extra.find? (fun e => e.1 == n) with
    | none => rw [hopt] at h; cases h
    | some y => rw [hopt] at hfil; cases hfil
  rw [hnone]
  rfl

theorem lookupHeader_merge_of_none (base extra : List (String × String)) (n : String)
    (h : (extra.find? (fun e => e.1 == n)).isNone = true) :
    lookupHeader (mergeHeaders base extra) n = lookupHeader base n := by
  unfold lookupHeader mergeHeaders
  rw [List.find?_append]
  have hextra : extra.find? (fun e => e.1 == n) = none := by
    cases hopt : extra.find? (fun e => e.1 == n) with
    | none => rfl
    | some y => rw [hopt] at h; cases h
  rw [hextra]
  rw [find?_filter_of_imp base (fun hh => hh.1 == n)
    (fun hh => (extra.find? (fun e => e.1 == hh.1)).isNone) ?_]
  · cases hb : base.find? (fun hh => hh.1 == n) <;> rfl
  · intro x hpx
    have hxn : x.1 = n := by simpa using hpx
    show (List.find? (fun e => e.1 == x.1) extra).isNone = true
    rw [hxn, hextra]
    rfl

/-- C8: `githubPatRequest` throws before any network call exactly when no
PAT is configured; otherwise it sends the request with the three fixed
headers merged with caller headers (caller precedence on conflict), appends
the request event, and on a non-2xx status appends a log carrying the path,
status and response body while still returning the response. -/
theorem githubPatRequest_contract (env : RepoConfig) (net : Net) (st : List Event)
    (path : String) (init : ReqInit) :
    (env.pat = "" →
      githubPatRequest env net st path init =
        (st, Except.error "GitHub PAT is not configured.")) ∧
    (env.pat ≠ "" →
      githubPatRequest env net st path init =
        (st ++ ghEvents env net path init,
         Except.ok (net (mkGitHubRequest env path init)))) ∧
    (respOk (net (mkGitHubRequest env path init)) = false →
      ghEvents env net path init =
        [Event.request (mkGitHubRequest env path init) (net (mkGitHubRequest env path init)),
         Event.logError ("GitHub PAT request failed: " ++
             toString (net (mkGitHubRequest env path init)).status ++ " " ++ path)
           [("body", (net (mkGitHubRequest env path init)).body)]]) ∧
    (respOk (net (mkGitHubRequest env path init)) = true →
      ghEvents env net path init =
        [Event.request (mkGitHubRequest env path init)
          (net (mkGitHubRequest env path init))]) ∧
    ((mkGitHubRequest env path init).headers = mergeHeaders (apiBaseHeaders env) init.headers) ∧
    (∀ n, (init.headers.find? (fun e => e.1 == n)).isSome = true →
      lookupHeader (mkGitHubRequest env path init).headers n = lookupHeader init.headers n) ∧
    (∀ n, (init.headers.find? (fun e => e.1 == n)).isNone = true →
      lookupHeader (mkGitHubRequest env path init).headers n =
        lookupHeader (apiBaseHeaders env) n) := by
  refine ⟨?_, ?_, ?_, ?_, rfl, ?_, ?_⟩
  · intro h
    unfold githubPatRequest
    rw [if_pos h]
  · exact githubPatRequest_pat_ne env net st path init
  · intro hok
    simp [ghEvents, ghFailLog, hok]
  · intro hok
    simp [ghEvents, hok]
  · intro n h
    exact lookupHeader_merge_of_some (apiBaseHeaders env) init.headers n h
  · intro n h
    exact lookupHeader_merge_of_none (apiBaseHeaders env) init.headers n h

theorem removeReadme_ok (env : RepoConfig) (net : Net) (st : List Event) (b : String)
    (hpat : env.pat ≠ "") :
    ∃ evs, removeReadmeFromBranch env net st b = (st ++ evs, Except.ok ()) := by
  unfold removeReadmeFromBranch
  simp only []
  rw [githubPatRequest_pat_ne _ _ _ _ _ hpat]
  simp only []
  split
  · exact ⟨_, rfl⟩
  · split
    · exact ⟨_, by rw [List.append_assoc]⟩
    · split
      · exact ⟨_, by rw [List.append_assoc]⟩
      · rw [githubPatRequest_pat_ne _ _ _ _ _ hpat]
        simp only []
        split
        · exact ⟨_, by rw [List.append_assoc, List.append_assoc]⟩
        · exact ⟨_, by rw [List.append_assoc]⟩

theorem ghEvents_ok (env : RepoConfig) (net : Net) (path : String) (init : ReqInit)
    (h : respOk (net (mkGitHubRequest env path init)) = true) :
    ghEvents env net path init =
      [Event.request (mkGitHubRequest env path init) (net (mkGitHubRequest env path init))] := by
  simp [ghEvents, h]

/-- C10: when the README metadata `GET` succeeds but its payload carries no
(truthy) `sha`, `removeReadmeFromBranch` appends exactly the `GET` request
event and the missing-SHA warning — in particular no `DELETE` request is
issued — and returns normally, so the caller proceeds to the content
commit. -/
theorem removeReadme_missing_sha (env : RepoConfig) (net : Net) (st : List Event) (b : String)
    (hpat : env.pat ≠ "")
    (hok : respOk (net (readmeGetReq env b)) = true)
    (hsha : jsFalsy ((net (readmeGetReq env b)).jsonData.field "sha") = true) :
    removeReadmeFromBranch env net st b =
      (st ++ [Event.request (readmeGetReq env b) (net (readmeGetReq env b)),
              Event.logWarn "[/github/preview] README metadata missing SHA." []],
       Except.ok ()) := by
  have hfold : mkGitHubRequest env
      (contentsPath env (encodeGitHubPath "README.md") ++ "?ref=" ++ encodeURIComponent b)
      { method := "GET", headers := [], body := none } = readmeGetReq env b := rfl
  have h404 : ¬ (net (readmeGetReq env b)).status = 404 := by
    simp only [respOk, Bool.and_eq_true, decide_eq_true_eq] at hok
    omega
  have hge : ghEvents env net
      (contentsPath env (encodeGitHubPath "README.md") ++ "?ref=" ++ encodeURIComponent b)
      { method := "GET", headers := [], body := none } =
      [Event.request (readmeGetReq env b) (net (readmeGetReq env b))] := by
    unfold ghEvents
    rw [hfold, hok]
    rfl
  unfold removeReadmeFromBranch
  simp only []
  rw [githubPatRequest_pat_ne _ _ _ _ _ hpat]
  simp only [hfold]
  rw [if_neg h404]
  rw [if_neg (show ¬(!respOk (net (readmeGetReq env b))) = true by simp [hok])]
  rw [if_pos hsha]
  rw [hge, List.append_assoc]
  rfl

theorem pushPreviewBranch_spec (env : RepoConfig) (net : Net) (uuid : String)
    (st : List Event) (content msg : String)
    (howner : env.owner ≠ "") (hrepo : env.repo ≠ "") (hpat : env.pat ≠ "")
    (hbase : respOk (net (baseRefReq env)) = true)
    (hsha : jsFalsy (baseShaOf (net (baseRefReq env)).jsonData) = false)
    (hcreate : respOk (net (createRefReq env uuid
      ((baseShaOf (net (baseRefReq env)).jsonData).getD Js.null))) = true) :
    ∃ evs, pushPreviewBranch env net uuid st content msg =
      (st ++ evs,
       if respOk (net (putContentsReq env uuid content msg)) then
         Except.ok (previewResult env uuid)
       else Except.error "Unable to update template file.") ∧
      Event.request (putContentsReq env uuid content msg)
        (net (putContentsReq env uuid content msg)) ∈ evs := by
  have hfoldBase : mkGitHubRequest env (baseRefPath env)
      { method := "GET", headers := [], body := none } = baseRefReq env := rfl
  have hfoldCreate : mkGitHubRequest env (createRefsPath env)
      { method := "POST", headers := [("Content-Type", "application/json")],
        body := some (Js.obj [("ref", Js.str ("refs/heads/" ++ previewBranchName uuid)),
          ("sha", (baseShaOf (net (baseRefReq env)).jsonData).getD Js.null)]) } =
      createRefReq env uuid ((baseShaOf (net (baseRefReq env)).jsonData).getD Js.null) := rfl
  have hfoldPut : mkGitHubRequest env (contentsPath env (encodeGitHubPath env.targetFilePath))
      { method := "PUT", headers := [("Content-Type", "application/json")],
        body := some (contentPutBody env (previewBranchName uuid) content msg) } =
      putContentsReq env uuid content msg := rfl
  unfold pushPreviewBranch
  rw [if_neg (show ¬((env.owner = "" || env.repo = "" || env.pat = "") = true) by
    simp [howner, hrepo, hpat])]
  simp only []
  rw [githubPatRequest_pat_ne _ _ _ _ _ hpat]
  simp only [hfoldBase]
  rw [if_neg (show ¬(!respOk (net (baseRefReq env))) = true by simp [hbase])]
  rw [if_neg (show ¬ jsFalsy (baseShaOf (net (baseRefReq env)).jsonData) = true by
    simp [hsha])]
  rw [githubPatRequest_pat_ne _ _ _ _ _ hpat]
  simp only [hfoldCreate]
  rw [if_neg (show ¬(!respOk (net (createRefReq env uuid
    ((baseShaOf (net (baseRefReq env)).jsonData).getD Js.null)))) = true by simp [hcreate])]
  obtain ⟨evsR, hR⟩ := removeReadme_ok env net
    (st ++ ghEvents env net (baseRefPath env) { method := "GET", headers := [], body := none }
      ++ ghEvents env net (createRefsPath env)
        { method := "POST", headers := [("Content-Type", "application/json")],
          body := some (Js.obj [("ref", Js.str ("refs/heads/" ++ previewBranchName uuid)),
            ("sha", (baseShaOf (net (baseRefReq env)).jsonData).getD Js.null)]) })
    (previewBranchName uuid) hpat
  rw [hR]
  simp only []
  rw [githubPatRequest_pat_ne _ _ _ _ _ hpat]
  simp only [hfoldPut]
  cases hput : respOk (net (putContentsReq env uuid content msg)) with
  | true =>
    rw [if_neg (show ¬(((!true) : Bool) = true) by decide)]
    apply Exists.intro
    constructor
    · rw [if_pos (show ((true : Bool) = true) from rfl)]
      simp only [List.append_assoc]
      rfl
    · simp [ghEvents, hfoldPut, List.mem_append]
  | false =>
    rw [if_pos (show (((!false) : Bool) = true) from rfl)]
    apply Exists.intro
    constructor
    · rw [if_neg (show ¬((false : Bool) = true) by decide)]
      simp only [List.append_assoc]
      rfl
    · simp [ghEvents, hfoldPut, List.mem_append]

theorem pushPreviewBranch_ok_result (env : RepoConfig) (net : Net) (uuid : String)
    (st : List Event) (content msg : String) (r : PreviewBranchResult)
    (h : (pushPreviewBranch env net uuid st content msg).2 = Except.ok r) :
    r = previewResult env uuid := by
  unfold pushPreviewBranch at h
  simp only [] at h
  split at h
  · simp at h
  · split at h
    · simp at h
    · split at h
      · simp at h
      · split at h
        · simp at h
        · split at h
          · simp at h
          · split at h
            · simp at h
            · split at h
              · simp at h
              · split at h
                · simp at h
                · split at h
                  · simp at h
                  · simp at h
                    exact h.symm

/-- C6: the branch name is `card-` followed by the freshly generated random
identifier, so two publish attempts whose generated identifiers differ can
never return the same branch name. -/
theorem branch_name_unique (env1 env2 : RepoConfig) (net1 net2 : Net) (u1 u2 : String)
    (st1 st2 : List Event) (c1 c2 m1 m2 : String) (r1 r2 : PreviewBranchResult)
    (h1 : (pushPreviewBranch env1 net1 u1 st1 c1 m1).2 = Except.ok r1)
    (h2 : (pushPreviewBranch env2 net2 u2 st2 c2 m2).2 = Except.ok r2)
    (hu : u1 ≠ u2) : r1.branchName ≠ r2.branchName := by
  rw [pushPreviewBranch_ok_result _ _ _ _ _ _ _ h1,
      pushPreviewBranch_ok_result _ _ _ _ _ _ _ h2]
  intro hcontra
  apply hu
  have heq : ("card-" ++ u1 : String) = "card-" ++ u2 := hcontra
  have hdata := congrArg String.data heq
  rw [String.data_append, String.data_append] at hdata
  exact String.ext (List.append_cancel_left hdata)

theorem branch_name_unique_witness :
    (previewResult envW "a").branchName ≠ (previewResult envW "b").branchName :=
  branch_name_unique envW envW netW netW "a" "b" [] [] "c" "c" "m" "m"
    (previewResult envW "a") (previewResult envW "b") (by rfl) (by rfl) (by decide)

/-- C2: once base-ref resolution and branch creation have succeeded, the
outcome of `pushPreviewBranch` depends only on the content-commit `PUT`
response: whatever the README `GET`/`DELETE` responses are, the `PUT`
request is issued and the publish succeeds exactly when the `PUT`
succeeds — a README-step failure is recorded in the trace only and never
aborts the operation. -/
theorem readme_failure_never_aborts (env : RepoConfig) (net : Net) (uuid : String)
    (st : List Event) (content msg : String)
    (howner : env.owner ≠ "") (hrepo : env.repo ≠ "") (hpat : env.pat ≠ "")
    (hbase : respOk (net (baseRefReq env)) = true)
    (hsha : jsFalsy (baseShaOf (net (baseRefReq env)).jsonData) = false)
    (hcreate : respOk (net (createRefReq env uuid
      ((baseShaOf (net (baseRefReq env)).jsonData).getD Js.null))) = true) :
    ∃ evs, pushPreviewBranch env net uuid st content msg =
      (st ++ evs,
       if respOk (net (putContentsReq env uuid content msg)) then
         Except.ok (previewResult env uuid)
       else Except.error "Unable to update template file.") ∧
      Event.request (putContentsReq env uuid content msg)
        (net (putContentsReq env uuid content msg)) ∈ evs :=
  pushPreviewBranch_spec env net uuid st content msg howner hrepo hpat hbase hsha hcreate

theorem readme_failure_never_aborts_witness :
    ∃ evs, pushPreviewBranch envW netNoShaW "u" [] "c" "m" =
      ([] ++ evs,
       if respOk (netNoShaW (putContentsReq envW "u" "c" "m")) then
         Except.ok (previewResult envW "u")
       else Except.error "Unable to update template file.") ∧
      Event.request (putContentsReq envW "u" "c" "m")
        (netNoShaW (putContentsReq envW "u" "c" "m")) ∈ evs :=
  readme_failure_never_aborts envW netNoShaW "u" [] "c" "m"
    (by decide) (by decide) (by decide) (by rfl) (by rfl) (by rfl)

theorem removeReadme_missing_sha_witness :
    removeReadmeFromBranch envW netNoShaW [] (previewBranchName "u") =
      ([] ++ [Event.request (readmeGetReq envW (previewBranchName "u"))
          (netNoShaW (readmeGetReq envW (previewBranchName "u"))),
        Event.logWarn "[/github/preview] README metadata missing SHA." []],
       Except.ok ()) :=
  removeReadme_missing_sha envW netNoShaW [] (previewBranchName "u")
    (by decide) (by rfl) (by rfl)

/-- C9 (amended): a provided `commitMessage` string that is non-blank after
trimming is trimmed, capped at 250 characters and used as the message of the
content commit; an absent or non-string `commitMessage` — and also a
provided string that is blank after trimming — falls back to the
timestamped default message.  The chosen message is carried in the `PUT`
request body's `message` field, and that `PUT` request is issued by the
handler. -/
theorem commit_message_spec (serialize : Doc → String) (env : RepoConfig) (net : Net)
    (uuid now : String) (doc : Doc) (j : Js)
    (howner : env.owner ≠ "") (hrepo : env.repo ≠ "") (hpat : env.pat ≠ "")
    (hfields : normalizeFieldValues ((j.field "fields").getD Js.null) ≠ [])
    (hbase : respOk (net (baseRefReq env)) = true)
    (hsha : jsFalsy (baseShaOf (net (baseRefReq env)).jsonData) = false)
    (hcreate : respOk (net (createRefReq env uuid
      ((baseShaOf (net (baseRefReq env)).jsonData).getD Js.null))) = true) :
    (∀ s, j.field "commitMessage" = some (Js.str s) → (trimWs s.data).isEmpty = false →
      computeCommitMessage (j.field "commitMessage") now =
        String.mk ((trimWs s.data).take 250)) ∧
    (∀ s, j.field "commitMessage" = some (Js.str s) → (trimWs s.data).isEmpty = true →
      computeCommitMessage (j.field "commitMessage") now = defaultCommitMessage now) ∧
    ((∀ s, j.field "commitMessage" ≠ some (Js.str s)) →
      computeCommitMessage (j.field "commitMessage") now = defaultCommitMessage now) ∧
    (∀ b content m, (contentPutBody env b content m).field "message" = some (Js.str m)) ∧
    (∀ content m, (putContentsReq env uuid content m).body =
      some (contentPutBody env (previewBranchName uuid) content m)) ∧
    Event.request
      (putContentsReq env uuid
        (serialize (applyFieldsToTemplate doc
          (normalizeFieldValues ((j.field "fields").getD Js.null))).1)
        (computeCommitMessage (j.field "commitMessage") now))
      (net (putContentsReq env uuid
        (serialize (applyFieldsToTemplate doc
          (normalizeFieldValues ((j.field "fields").getD Js.null))).1)
        (computeCommitMessage (j.field "commitMessage") now))) ∈
      (previewHandler serialize env net uuid now (some doc) (some j)).1 := by
  have hcfg : ¬((env.owner = "" || env.repo = "" || env.pat = "") = true) := by
    simp [howner, hrepo, hpat]
  refine ⟨?_, ?_, ?_, fun b content m => rfl, fun content m => rfl, ?_⟩
  · intro s hs hne
    rw [hs]
    simp [computeCommitMessage, hne]
  · intro s hs hb
    rw [hs]
    simp [computeCommitMessage, hb]
  · intro hns
    cases hm : j.field "commitMessage" with
    | none => rfl
    | some v =>
      cases v with
      | str s => exact absurd hm (hns s)
      | null => rfl
      | obj f => rfl
      | other => rfl
  · obtain ⟨evs, hpush, hmem⟩ := pushPreviewBranch_spec env net uuid [Event.templateRead]
      (serialize (applyFieldsToTemplate doc
        (normalizeFieldValues ((j.field "fields").getD Js.null))).1)
      (computeCommitMessage (j.field "commitMessage") now)
      howner hrepo hpat hbase hsha hcreate
    unfold previewHandler
    rw [if_neg hcfg]
    simp only []
    rw [if_neg (show ¬((normalizeFieldValues ((j.field "fields").getD Js.null)).isEmpty = true)
      by simpa [List.isEmpty_iff] using hfields)]
    rw [hpush]
    cases hput : respOk (net (putContentsReq env uuid
        (serialize (applyFieldsToTemplate doc
          (normalizeFieldValues ((j.field "fields").getD Js.null))).1)
        (computeCommitMessage (j.field "commitMessage") now))) with
    | true =>
      rw [if_pos (show ((true : Bool) = true) from rfl)]
      simp only []
      exact List.mem_append.mpr (Or.inr hmem)
    | false =>
      rw [if_neg (show ¬((false : Bool) = true) by decide)]
      simp only []
      exact List.mem_append.mpr (Or.inl (List.mem_append.mpr (Or.inr hmem)))

/-- C9 counterexample: a provided commitMessage of `" "` (blank after
trimming) is not used trimmed-and-capped as the claim states; the code
falls back to the timestamped default message instead. -/
theorem commit_message_counterexample :
    computeCommitMessage (some (Js.str " ")) "T" ≠
      String.mk ((trimWs (String.data " ")).take 250) ∧
    computeCommitMessage (some (Js.str " ")) "T" = defaultCommitMessage "T" := by
  constructor <;> decide

theorem commit_message_spec_witness :
    (∀ s, bodyW.field "commitMessage" = some (Js.str s) → (trimWs s.data).isEmpty = false →
      computeCommitMessage (bodyW.field "commitMessage") "T" =
        String.mk ((trimWs s.data).take 250)) ∧
    (∀ s, bodyW.field "commitMessage" = some (Js.str s) → (trimWs s.data).isEmpty = true →
      computeCommitMessage (bodyW.field "commitMessage") "T" = defaultCommitMessage "T") ∧
    ((∀ s, bodyW.field "commitMessage" ≠ some (Js.str s)) →
      computeCommitMessage (bodyW.field "commitMessage") "T" = defaultCommitMessage "T") ∧
    (∀ b content m, (contentPutBody envW b content m).field "message" = some (Js.str m)) ∧
    (∀ content m, (putContentsReq envW "u" content m).body =
      some (contentPutBody envW (previewBranchName "u") content m)) ∧
    Event.request
      (putContentsReq envW "u"
        (serializeW (applyFieldsToTemplate docW
          (normalizeFieldValues ((bodyW.field "fields").getD Js.null))).1)
        (computeCommitMessage (bodyW.field "commitMessage") "T"))
      (netW (putContentsReq envW "u"
        (serializeW (applyFieldsToTemplate docW
          (normalizeFieldValues ((bodyW.field "fields").getD Js.null))).1)
        (computeCommitMessage (bodyW.field "commitMessage") "T"))) ∈
      (previewHandler serializeW envW netW "u" "T" (some docW) (some bodyW)).1 :=
  commit_message_spec serializeW envW netW "u" "T" docW bodyW
    (by decide) (by decide) (by decide) (by decide) (by rfl) (by rfl) (by rfl)
